import Mathlib

/-!
Verification of the streaming base-backup / WAL shipping subsystem
(`basebackup.c`, `pg_basebackup.c`, `pg_receivexlog.c`, `receivelog.c`)
against its natural-language specification.

Pure functions of the C source are embedded as Lean functions; the stateful
receive loops are embedded as explicit step functions over small state types
producing event traces.  Machine integers are modelled as `Nat` with explicit
`% 2^32` where 32-bit wraparound matters.
-/

set_option autoImplicit false
set_option maxRecDepth 8192

namespace BaseBackup

/-! ### sendFile (basebackup.c): tar member body emission -/

/-- Size of the read buffer in `sendFile` (`char buf[32768]`). -/
def BUFSZ : Nat := 32768

/--
The `while ((cnt = fread(...)) > 0)` loop of `sendFile`, started at file
position `len`.  `statSize` is `statbuf->st_size` (taken at `lstat` time);
`contents` are the live bytes of the file, which may be shorter (file was
truncated) or longer (file grew) than `statSize`.  Each `fread` asks for
`Min(sizeof(buf), statSize - len)` bytes and yields
`min requested (contents.length - len)` bytes; the loop exits when `fread`
returns 0 or when `len >= statSize` (excess data in a grown file is ignored).
Returns the bytes forwarded by the loop, in order.
-/
def sendFileLoop (statSize : Nat) (contents : List Nat) (len : Nat) : List Nat :=
  let req := min BUFSZ (statSize - len)
  let cnt := min req (contents.length - len)
  if h : cnt = 0 then []
  else
    let chunk := (contents.drop len).take cnt
    if statSize ≤ len + cnt then chunk
    else chunk ++ sendFileLoop statSize contents (len + cnt)
termination_by statSize - len
decreasing_by
  simp only [BUFSZ] at *
  omega

/-- `(len + 511) & ~511`: round up to the next multiple of 512. -/
def roundUp512 (n : Nat) : Nat := ((n + 511) / 512) * 512

/--
The body bytes emitted by `sendFile` after the 512-byte header: the read
loop, then the zero-fill loop (`while (len < statbuf->st_size)`, all-zero
buffers), then the pad to a 512-byte boundary
(`pad = ((len + 511) & ~511) - len`).
-/
def sendFileBody (statSize : Nat) (contents : List Nat) : List Nat :=
  let data := sendFileLoop statSize contents 0
  let zeros := List.replicate (statSize - data.length) 0
  let pad := roundUp512 statSize - statSize
  data ++ zeros ++ List.replicate pad 0

theorem roundUp512_ge (n : Nat) : n ≤ roundUp512 n := by
  unfold roundUp512
  have h1 := Nat.div_add_mod (n + 511) 512
  have h2 : (n + 511) % 512 < 512 := Nat.mod_lt _ (by norm_num)
  omega

/-- Closed form of the read loop: starting at position `len` it forwards
exactly the file bytes from `len` up to `min statSize contents.length`. -/
theorem sendFileLoop_eq (statSize : Nat) (contents : List Nat) (len : Nat) :
    sendFileLoop statSize contents len =
      (contents.drop len).take (min statSize contents.length - len) := by
  generalize hm : statSize - len = m
  induction m using Nat.strong_induction_on generalizing len with
  | _ m ih =>
    unfold sendFileLoop
    simp only
    split
    · rename_i h
      have : min statSize contents.length - len = 0 := by
        simp only [BUFSZ] at h
        omega
      simp [this]
    · rename_i h
      simp only [BUFSZ] at h
      split
      · rename_i hle
        have : min BUFSZ (statSize - len) ⊓ (contents.length - len) =
            min statSize contents.length - len := by
          simp only [BUFSZ] at *
          omega
        simp only [BUFSZ] at this ⊢
        rw [this]
      · rename_i hlt
        push_neg at hlt
        set cnt := min (min BUFSZ (statSize - len)) (contents.length - len) with hcnt
        have hc1 : 0 < cnt := Nat.pos_of_ne_zero h
        have hrec := ih (statSize - (len + cnt)) (by simp only [hcnt, BUFSZ] at *; omega)
          (len + cnt) rfl
        rw [hrec]
        have hsplit : min statSize contents.length - len =
            cnt + (min statSize contents.length - (len + cnt)) := by
          simp only [hcnt, BUFSZ] at *
          omega
        rw [hsplit, List.take_add, List.drop_drop]

/--
C1: for a regular member with declared size `N` (from `lstat`), `sendFile`
emits after the header exactly `roundUp512 N` body bytes: the first
`min N (bytes actually read)` bytes are the file's contents, the rest are
zeros (zero padding when the file shrank or EOF came early), and bytes the
file yields beyond `N` are discarded.
-/
theorem sendFile_body_bytes (statSize : Nat) (contents : List Nat) :
    sendFileBody statSize contents =
      contents.take (min statSize contents.length) ++
        List.replicate (roundUp512 statSize - min statSize contents.length) 0 ∧
    (sendFileBody statSize contents).length = roundUp512 statSize := by
  have hdata : sendFileLoop statSize contents 0 =
      contents.take (min statSize contents.length) := by
    rw [sendFileLoop_eq]
    simp
  have hlen : (contents.take (min statSize contents.length)).length =
      min statSize contents.length := by
    simp [Nat.min_le_right]
  have hge := roundUp512_ge statSize
  have hminle : min statSize contents.length ≤ statSize := Nat.min_le_left _ _
  constructor
  · simp only [sendFileBody, hdata, hlen, List.append_assoc, ← List.replicate_add]
    congr 2
    omega
  · simp only [sendFileBody, hdata, hlen, List.length_append, List.length_replicate]
    omega

end BaseBackup

namespace ReceiveLog

/-! ### ReceiveXlogStream (receivelog.c): WAL segment receiver -/

/-- `XLOG_SEG_SIZE`: 16 MiB WAL segments. -/
def XLOG_SEG_SIZE : Nat := 16 * 1024 * 1024

/-- Modulus of the 32-bit `xrecoff` field (`uint32` arithmetic). -/
def U32 : Nat := 2 ^ 32

/-- `XLogRecPtr`: a WAL position, two 32-bit fields. -/
structure XLogRecPtr where
  xlogid : Nat
  xrecoff : Nat
deriving Repr, DecidableEq

/-- Observable events of the receive loop, in program order. -/
inductive WEvent where
  /-- `open_walfile(blockstart, timeline, basedir, ...)`: create the segment
      file for the segment containing `blockstart`, positioned at offset 0. -/
  | openSeg (blockstart : XLogRecPtr)
  /-- `write()` of `len` bytes at offset `off` of the open segment file. -/
  | write (off len : Nat)
  /-- `fsync(walfile)` at the end of a segment. -/
  | fsyncSeg
  /-- `close(walfile)` at the end of a segment. -/
  | closeSeg
  /-- invocation of the `segment_finish` callback with the advanced
      `blockstart`. -/
  | segFinish (blockstart : XLogRecPtr)
deriving Repr, DecidableEq

/-- Outcome of the inner `while (bytes_left)` loop. -/
inductive LoopOutcome where
  /-- fall through to the next copy packet; `walOff` is the open segment
      file's write offset, `none` when no file is open. -/
  | cont (walOff : Option Nat)
  /-- `segment_finish` returned true: `ReceiveXlogStream` returns true. -/
  | stopTrue
deriving Repr, DecidableEq

/--
`bytes_to_write` of one inner-loop iteration: `if (xlogoff + bytes_left >
XLOG_SEG_SIZE) bytes_to_write = XLOG_SEG_SIZE - xlogoff; else bytes_to_write
= bytes_left;` — a block is split so that no write crosses the segment
boundary.
-/
def bytesToWrite (xlogoff bytesLeft : Nat) : Nat :=
  if XLOG_SEG_SIZE < xlogoff + bytesLeft then XLOG_SEG_SIZE - xlogoff else bytesLeft

/-- `blockstart.xrecoff += bytes_to_write` on the 32-bit `xrecoff` field. -/
def advance (bs : XLogRecPtr) (n : Nat) : XLogRecPtr :=
  ⟨bs.xlogid, (bs.xrecoff + n) % U32⟩

theorem bytesToWrite_pos {xlogoff bytesLeft : Nat} (hx : xlogoff < XLOG_SEG_SIZE)
    (h0 : bytesLeft ≠ 0) : 0 < bytesToWrite xlogoff bytesLeft := by
  unfold bytesToWrite
  split <;> omega

theorem bytesToWrite_seg_le {xlogoff bytesLeft : Nat} (hx : xlogoff < XLOG_SEG_SIZE) :
    xlogoff + bytesToWrite xlogoff bytesLeft ≤ XLOG_SEG_SIZE := by
  unfold bytesToWrite
  split <;> omega

theorem bytesToWrite_le {xlogoff bytesLeft : Nat} :
    bytesToWrite xlogoff bytesLeft ≤ bytesLeft := by
  unfold bytesToWrite
  split <;> omega

theorem advance_mod {bs : XLogRecPtr} {xlogoff : Nat}
    (hb : bs.xrecoff % XLOG_SEG_SIZE = xlogoff) (n : Nat) :
    (advance bs n).xrecoff % XLOG_SEG_SIZE = (xlogoff + n) % XLOG_SEG_SIZE := by
  simp only [advance, XLOG_SEG_SIZE, U32] at hb ⊢
  norm_num at hb ⊢
  omega

/--
The inner `while (bytes_left)` loop of `ReceiveXlogStream`.  `blockstart` is
the (32-bit-wrapping) WAL position of the next byte to write, `xlogoff` the
write offset inside the current segment, `walOpen` whether a segment file is
open (`walfile != -1`).  Each iteration writes `bytesToWrite` bytes (never
crossing the segment boundary), opening the file first if none is open, and
on reaching a boundary (`blockstart.xrecoff % XLOG_SEG_SIZE == 0` after
advancing) fsyncs, closes, and invokes the callback, returning true if it
does.  `fuel` bounds the recursion; `fuel = bytesLeft` suffices because each
iteration consumes at least one byte (which needs the caller-established
invariants `xlogoff < XLOG_SEG_SIZE` and
`blockstart.xrecoff % XLOG_SEG_SIZE = xlogoff`, carried as arguments).
-/
def innerLoop (cb : XLogRecPtr → Bool) : (fuel : Nat) → (blockstart : XLogRecPtr) →
    (xlogoff : Nat) → (walOpen : Bool) → (bytesLeft : Nat) →
    bytesLeft ≤ fuel → xlogoff < XLOG_SEG_SIZE →
    blockstart.xrecoff % XLOG_SEG_SIZE = xlogoff → List WEvent × LoopOutcome
  | 0, _, xlogoff, walOpen, _, _, _, _ =>
      ([], .cont (if walOpen then some xlogoff else none))
  | fuel + 1, blockstart, xlogoff, walOpen, bytesLeft, hf, hx, hb =>
      if h0 : bytesLeft = 0 then
        ([], .cont (if walOpen then some xlogoff else none))
      else
        let btw := bytesToWrite xlogoff bytesLeft
        let openEvs : List WEvent := if walOpen then [] else [.openSeg blockstart]
        let blockstart' : XLogRecPtr := advance blockstart btw
        have hble : bytesLeft - btw ≤ fuel := by
          have := bytesToWrite_pos hx h0
          omega
        if hbound : blockstart'.xrecoff % XLOG_SEG_SIZE = 0 then
          let evs := openEvs ++ [.write xlogoff btw, .fsyncSeg, .closeSeg,
                                 .segFinish blockstart']
          if cb blockstart' then (evs, .stopTrue)
          else
            let rest := innerLoop cb fuel blockstart' 0 false (bytesLeft - btw)
              hble (by norm_num [XLOG_SEG_SIZE]) hbound
            (evs ++ rest.1, rest.2)
        else
          have hlt : xlogoff + btw < XLOG_SEG_SIZE := by
            rw [advance_mod hb] at hbound
            have := @bytesToWrite_seg_le xlogoff bytesLeft hx
            rcases Nat.eq_or_lt_of_le this with h | h
            · exact absurd (by rw [h, Nat.mod_self]) hbound
            · exact h
          let rest := innerLoop cb fuel blockstart' (xlogoff + btw) true
            (bytesLeft - btw) hble hlt
            (by rw [advance_mod hb]; exact Nat.mod_eq_of_lt hlt)
          (openEvs ++ .write xlogoff btw :: rest.1, rest.2)

/-- Result of processing one copy-data message. -/
inductive StepResult where
  /-- a fatal check failed: `ReceiveXlogStream` returns false. -/
  | failed
  /-- the callback told us to stop: `ReceiveXlogStream` returns true. -/
  | stopped
  /-- continue with this segment-file state. -/
  | ok (walOff : Option Nat)
deriving Repr, DecidableEq

/--
Processing of one `'w'`-prefixed copy-data message (transport checks —
length at least `STREAMING_HEADER_SIZE + 1` and leading byte `'w'` — have
already accepted it): extract `blockstart`, compute
`xlogoff = blockstart.xrecoff % XLOG_SEG_SIZE`; with no file open `xlogoff`
must be 0, with a file open at offset `off` (`lseek(walfile, 0, SEEK_CUR)`)
`off` must equal `xlogoff`; then run the write loop over the
`payloadLen = r - STREAMING_HEADER_SIZE` payload bytes.
-/
def processMsg (cb : XLogRecPtr → Bool) (walOff : Option Nat)
    (blockstart : XLogRecPtr) (payloadLen : Nat) : List WEvent × StepResult :=
  let xlogoff := blockstart.xrecoff % XLOG_SEG_SIZE
  have hx : xlogoff < XLOG_SEG_SIZE :=
    Nat.mod_lt _ (by norm_num [XLOG_SEG_SIZE])
  match walOff with
  | none =>
      if h : xlogoff ≠ 0 then ([], .failed)
      else
        let r := innerLoop cb payloadLen blockstart xlogoff false payloadLen
          (Nat.le_refl _) hx rfl
        (r.1, match r.2 with
              | .cont w => .ok w
              | .stopTrue => .stopped)
  | some off =>
      if off ≠ xlogoff then ([], .failed)
      else
        let r := innerLoop cb payloadLen blockstart xlogoff true payloadLen
          (Nat.le_refl _) hx rfl
        (r.1, match r.2 with
              | .cont w => .ok w
              | .stopTrue => .stopped)

/--
The outer receive loop over a finite prefix of the incoming copy-data
messages (each given as extracted `blockstart` and payload length); an empty
list models the end of the copy stream (`PQgetCopyData` returning -1).
-/
def processMsgs (cb : XLogRecPtr → Bool) (walOff : Option Nat) :
    List (XLogRecPtr × Nat) → List WEvent × StepResult
  | [] => ([], .ok walOff)
  | (bs, len) :: rest =>
      match (processMsg cb walOff bs len).2 with
      | .ok w =>
          let r := processMsgs cb w rest
          ((processMsg cb walOff bs len).1 ++ r.1, r.2)
      | .failed => ((processMsg cb walOff bs len).1, .failed)
      | .stopped => ((processMsg cb walOff bs len).1, .stopped)

/-- State of the well-formedness checker for a receiver event trace. -/
inductive TraceState where
  /-- no segment file open. -/
  | closed
  /-- a segment file is open with `off` bytes written so far. -/
  | opened (off : Nat)
  /-- 16 MiB written: the next event must be the fsync. -/
  | full
  /-- fsynced: the next event must be the close. -/
  | synced
  /-- closed after a full segment: the next event must be the callback. -/
  | flushed
  /-- the callback returned true: no further events are permitted. -/
  | halted
deriving Repr, DecidableEq

/--
One step of the trace checker: writes go only to the open file, are
contiguous from offset 0, have positive length and never cross the 16 MiB
boundary; on reaching the boundary the next three events must be fsync,
close, callback in that order; after a callback that returned true nothing
more may happen.
-/
def traceStep (cb : XLogRecPtr → Bool) : TraceState → WEvent → Option TraceState
  | .closed, .openSeg _ => some (.opened 0)
  | .opened o, .write off l =>
      if off = o ∧ 0 < l ∧ off + l ≤ XLOG_SEG_SIZE then
        if off + l = XLOG_SEG_SIZE then some .full else some (.opened (off + l))
      else none
  | .full, .fsyncSeg => some .synced
  | .synced, .closeSeg => some .flushed
  | .flushed, .segFinish bs =>
      if bs.xrecoff % XLOG_SEG_SIZE = 0 then
        some (if cb bs then .halted else .closed)
      else none
  | _, _ => none

/-- Run the trace checker over a whole event list. -/
def traceRun (cb : XLogRecPtr → Bool) : TraceState → List WEvent → Option TraceState
  | st, [] => some st
  | st, e :: rest =>
      match traceStep cb st e with
      | some st' => traceRun cb st' rest
      | none => none

/-- The checker state corresponding to a segment-file state. -/
def stateOf : Option Nat → TraceState
  | none => .closed
  | some o => .opened o

theorem traceRun_append (cb : XLogRecPtr → Bool) (a b : List WEvent) :
    ∀ st : TraceState, traceRun cb st (a ++ b) =
      (traceRun cb st a).bind (fun st' => traceRun cb st' b) := by
  induction a with
  | nil => intro st; simp [traceRun]
  | cons e rest ih =>
      intro st
      simp only [List.cons_append, traceRun]
      cases traceStep cb st e with
      | none => simp
      | some st' => simpa using ih st'

/-- Checker start state for a given file-open flag and offset. -/
def startState : Bool → Nat → TraceState
  | true, o => .opened o
  | false, _ => .closed

/-- The event trace of one run of the inner write loop is accepted by the
trace checker, and the checker's final state mirrors the loop outcome. -/
theorem innerLoop_trace (cb : XLogRecPtr → Bool) (fuel : Nat) :
    ∀ (bs : XLogRecPtr) (xlogoff : Nat) (walOpen : Bool) (bytesLeft : Nat)
      (hf : bytesLeft ≤ fuel) (hx : xlogoff < XLOG_SEG_SIZE)
      (hb : bs.xrecoff % XLOG_SEG_SIZE = xlogoff)
      (hopen : walOpen = false → xlogoff = 0),
      traceRun cb (startState walOpen xlogoff)
          (innerLoop cb fuel bs xlogoff walOpen bytesLeft hf hx hb).1 =
        some (match (innerLoop cb fuel bs xlogoff walOpen bytesLeft hf hx hb).2 with
              | .cont w => stateOf w
              | .stopTrue => .halted) := by
  induction fuel with
  | zero =>
      intro bs xlogoff walOpen bytesLeft hf hx hb hopen
      cases walOpen <;> simp [innerLoop, traceRun, stateOf, startState]
  | succ fuel ih =>
      intro bs xlogoff walOpen bytesLeft hf hx hb hopen
      by_cases h0 : bytesLeft = 0
      · cases walOpen <;> simp [innerLoop, h0, traceRun, stateOf, startState]
      · have hw : 0 < bytesToWrite xlogoff bytesLeft := bytesToWrite_pos hx h0
        have hle : xlogoff + bytesToWrite xlogoff bytesLeft ≤ XLOG_SEG_SIZE :=
          bytesToWrite_seg_le hx
        simp only [innerLoop, dif_neg h0]
        by_cases hbound :
            (advance bs (bytesToWrite xlogoff bytesLeft)).xrecoff % XLOG_SEG_SIZE = 0
        · have hseg : xlogoff + bytesToWrite xlogoff bytesLeft = XLOG_SEG_SIZE := by
            rw [advance_mod hb] at hbound
            rcases Nat.eq_or_lt_of_le hle with h | h
            · exact h
            · rw [Nat.mod_eq_of_lt h] at hbound
              omega
          rw [dif_pos hbound]
          by_cases hcb : cb (advance bs (bytesToWrite xlogoff bytesLeft))
          · rw [if_pos hcb]
            cases walOpen with
            | true =>
                simp [traceRun, traceStep, hw, hle, hseg, hbound, hcb, startState]
            | false =>
                have hz := hopen rfl
                subst hz
                simp [traceRun, traceStep, hw, hle, hseg, hbound, hcb, startState]
          · rw [if_neg hcb]
            have ihres := ih (advance bs (bytesToWrite xlogoff bytesLeft)) 0 false
              (bytesLeft - bytesToWrite xlogoff bytesLeft)
              (by omega) (by norm_num [XLOG_SEG_SIZE]) hbound (fun _ => rfl)
            simp only [startState] at ihres
            cases walOpen with
            | true =>
                simp only [startState, traceRun_append]
                simp [traceRun, traceStep, hw, hle, hseg, hbound, hcb, ihres]
            | false =>
                have hz := hopen rfl
                subst hz
                simp only [startState, traceRun_append]
                simp [traceRun, traceStep, hw, hle, hseg, hbound, hcb, ihres]
        · have hlt : xlogoff + bytesToWrite xlogoff bytesLeft < XLOG_SEG_SIZE := by
            rcases Nat.eq_or_lt_of_le hle with h | h
            · rw [advance_mod hb, h, Nat.mod_self] at hbound
              exact absurd rfl hbound
            · exact h
          rw [dif_neg hbound]
          have ihres := ih (advance bs (bytesToWrite xlogoff bytesLeft))
            (xlogoff + bytesToWrite xlogoff bytesLeft) true
            (bytesLeft - bytesToWrite xlogoff bytesLeft)
            (by omega) hlt (by rw [advance_mod hb]; exact Nat.mod_eq_of_lt hlt)
            (fun h => absurd h (by simp))
          simp only [startState] at ihres
          cases walOpen with
          | true =>
              simp only [startState]
              simp [traceRun, traceStep, hw, hle, Nat.ne_of_lt hlt, ihres]
          | false =>
              have hz := hopen rfl
              subst hz
              simp only [startState]
              simp only [Nat.zero_add] at ihres hle hlt
              simp [traceRun, traceStep, hw, hle, Nat.ne_of_lt hlt, ihres]

/-- The event trace of one message is accepted by the checker and the final
checker state mirrors the step result (on a failed check nothing was
emitted). -/
theorem processMsg_trace (cb : XLogRecPtr → Bool) (walOff : Option Nat)
    (bs : XLogRecPtr) (len : Nat) :
    ∃ st, traceRun cb (stateOf walOff) (processMsg cb walOff bs len).1 = some st ∧
      (match (processMsg cb walOff bs len).2 with
       | .failed => st = stateOf walOff
       | .stopped => st = .halted
       | .ok w => st = stateOf w) := by
  cases walOff with
  | none =>
      by_cases h : bs.xrecoff % XLOG_SEG_SIZE ≠ 0
      · refine ⟨.closed, ?_, ?_⟩ <;> simp [processMsg, h, traceRun, stateOf]
      · push_neg at h
        have tr := innerLoop_trace cb len bs (bs.xrecoff % XLOG_SEG_SIZE) false len
          (Nat.le_refl _) (Nat.mod_lt _ (by norm_num [XLOG_SEG_SIZE])) rfl (fun _ => h)
        simp only [startState] at tr
        simp only [processMsg, dif_neg (not_not_intro h)]
        refine ⟨_, tr, ?_⟩
        cases hout : (innerLoop cb len bs (bs.xrecoff % XLOG_SEG_SIZE) false len
            (Nat.le_refl _) (Nat.mod_lt _ (by norm_num [XLOG_SEG_SIZE])) rfl).2 with
        | cont w => simp [hout]
        | stopTrue => simp [hout]
  | some off =>
      by_cases h : off ≠ bs.xrecoff % XLOG_SEG_SIZE
      · refine ⟨.opened off, ?_, ?_⟩ <;> simp [processMsg, h, traceRun, stateOf]
      · push_neg at h
        subst h
        have tr := innerLoop_trace cb len bs (bs.xrecoff % XLOG_SEG_SIZE) true len
          (Nat.le_refl _) (Nat.mod_lt _ (by norm_num [XLOG_SEG_SIZE])) rfl
          (fun hc => absurd hc (by simp))
        simp only [startState] at tr
        simp only [processMsg, if_neg (not_not_intro rfl)]
        refine ⟨_, tr, ?_⟩
        cases hout : (innerLoop cb len bs (bs.xrecoff % XLOG_SEG_SIZE) true len
            (Nat.le_refl _) (Nat.mod_lt _ (by norm_num [XLOG_SEG_SIZE])) rfl).2 with
        | cont w => simp [hout]
        | stopTrue => simp [hout]

/-- The event trace of a whole receiver run is accepted by the checker; the
final checker state is `halted` exactly on a callback-requested stop and is
never in the middle of a boundary fsync/close/callback triple. -/
theorem processMsgs_trace (cb : XLogRecPtr → Bool) :
    ∀ (msgs : List (XLogRecPtr × Nat)) (walOff : Option Nat),
      ∃ st, traceRun cb (stateOf walOff) (processMsgs cb walOff msgs).1 = some st ∧
        (match (processMsgs cb walOff msgs).2 with
         | .failed => ∃ w, st = stateOf w
         | .stopped => st = .halted
         | .ok w => st = stateOf w) := by
  intro msgs
  induction msgs with
  | nil =>
      intro walOff
      exact ⟨stateOf walOff, by simp [processMsgs, traceRun], by simp [processMsgs]⟩
  | cons m rest ih =>
      intro walOff
      obtain ⟨bs, len⟩ := m
      obtain ⟨st1, htr1, hpost1⟩ := processMsg_trace cb walOff bs len
      cases hout : (processMsg cb walOff bs len).2 with
      | failed =>
          rw [hout] at hpost1
          refine ⟨st1, ?_, ?_⟩
          · simp [processMsgs, hout, htr1]
          · simp [processMsgs, hout]
            exact ⟨walOff, hpost1⟩
      | stopped =>
          rw [hout] at hpost1
          refine ⟨st1, ?_, ?_⟩
          · simp [processMsgs, hout, htr1]
          · simp [processMsgs, hout, hpost1]
      | ok w =>
          rw [hout] at hpost1
          obtain ⟨st2, htr2, hpost2⟩ := ih w
          refine ⟨st2, ?_, ?_⟩
          · simp only [processMsgs, hout, traceRun_append, htr1, Option.bind_some]
            rw [hpost1]
            exact htr2
          · simpa [processMsgs, hout] using hpost2

/--
C2: for every incoming `'w'`-prefixed copy-data message: with no segment
file open, `xlogoff = blockstart.xrecoff % XLOG_SEG_SIZE` must be 0 or the
function fails; with a segment file open at write offset `off`, `off` must
equal `xlogoff` or the function fails; consequently on every accepted
message the receiver's current write offset equals the carried
`byte_offset` modulo the segment size.
-/
theorem walrcv_offset_checks (cb : XLogRecPtr → Bool) (walOff : Option Nat)
    (bs : XLogRecPtr) (len : Nat) :
    (walOff = none → bs.xrecoff % XLOG_SEG_SIZE ≠ 0 →
        processMsg cb walOff bs len = ([], .failed)) ∧
    (∀ off, walOff = some off → off ≠ bs.xrecoff % XLOG_SEG_SIZE →
        processMsg cb walOff bs len = ([], .failed)) ∧
    ((processMsg cb walOff bs len).2 ≠ .failed →
        walOff.getD 0 = bs.xrecoff % XLOG_SEG_SIZE) := by
  refine ⟨?_, ?_, ?_⟩
  · rintro rfl hne
    simp [processMsg, hne]
  · rintro off rfl hne
    simp [processMsg, hne]
  · intro hres
    cases walOff with
    | none =>
        by_cases h : bs.xrecoff % XLOG_SEG_SIZE = 0
        · simpa using h.symm
        · exact absurd (by simp [processMsg, h]) hres
    | some off =>
        by_cases h : off = bs.xrecoff % XLOG_SEG_SIZE
        · simpa using h
        · exact absurd (by simp [processMsg, h]) hres

/-- Witness for `walrcv_offset_checks` at concrete inputs: a nonzero offset
with no file open fails, a mismatched offset with a file open fails, and an
accepted message has matching offsets. -/
theorem walrcv_offset_checks_witness :
    processMsg (fun _ => false) none ⟨0, 5⟩ 4 = ([], .failed) ∧
    processMsg (fun _ => false) (some 3) ⟨0, 5⟩ 4 = ([], .failed) ∧
    (some 5 : Option Nat).getD 0 = (5 : Nat) % XLOG_SEG_SIZE :=
  ⟨(walrcv_offset_checks (fun _ => false) none ⟨0, 5⟩ 4).1 rfl (by decide),
   (walrcv_offset_checks (fun _ => false) (some 3) ⟨0, 5⟩ 4).2.1 3 rfl (by decide),
   (walrcv_offset_checks (fun _ => false) (some 5) ⟨0, 5⟩ 4).2.2 (by decide)⟩

/--
C3: over any receiver run, the emitted event trace is accepted by the
checker: bytes of each segment are written contiguously from offset 0 in
strictly increasing order, no single write crosses the 16 MiB boundary, and
on reaching the boundary the file is fsynced, then closed, then the
callback is invoked; the run result is the callback-stop exactly when the
checker halts, and a halted checker state means nothing was emitted after
that callback.
-/
theorem walrcv_segment_trace (cb : XLogRecPtr → Bool)
    (msgs : List (XLogRecPtr × Nat)) :
    ∃ st, traceRun cb .closed (processMsgs cb none msgs).1 = some st ∧
      ((processMsgs cb none msgs).2 = .stopped ↔ st = .halted) ∧
      (∀ w, (processMsgs cb none msgs).2 = .ok w → st = stateOf w) := by
  obtain ⟨st, htr, hpost⟩ := processMsgs_trace cb msgs none
  refine ⟨st, htr, ?_, ?_⟩
  · constructor
    · intro h
      rw [h] at hpost
      exact hpost
    · intro h
      cases hout : (processMsgs cb none msgs).2 with
      | failed =>
          rw [hout] at hpost
          obtain ⟨w, hw⟩ := hpost
          rw [h] at hw
          cases w <;> simp [stateOf] at hw
      | stopped => rfl
      | ok w =>
          rw [hout] at hpost
          rw [h] at hpost
          cases w <;> simp [stateOf] at hpost
  · intro w hw
    rw [hw] at hpost
    exact hpost

/-- Witness for `walrcv_segment_trace`: a single message carrying one full
16 MiB segment with a stop-requesting callback yields a halted checker. -/
theorem walrcv_segment_trace_witness :
    traceRun (fun _ => true) TraceState.closed
      (processMsgs (fun _ => true) none [(⟨0, 0⟩, XLOG_SEG_SIZE)]).1 =
      some TraceState.halted := by
  obtain ⟨st, h1, h2, h3⟩ :=
    walrcv_segment_trace (fun _ => true) [(⟨0, 0⟩, XLOG_SEG_SIZE)]
  rw [h1, h2.mp (by decide)]

end ReceiveLog

namespace BaseBackup

/-! ### _tarWriteHeader / _tarChecksum (basebackup.c) -/

/-- Overwrite the bytes of header `h` starting at `off` with `bytes`
(models in-place stores of `sprintf`/`print_val`/`strcpy` into `char h[512]`). -/
def writeAt (h : Nat → Nat) (off : Nat) (bytes : List Nat) : Nat → Nat :=
  fun i => if off ≤ i ∧ i < off + bytes.length then bytes.getD (i - off) 0 else h i

/-- The octal digit characters of `v`, most significant first, as produced
by `%o` (at least one digit). -/
def octalChars (v : Nat) : List Nat := (Nat.toDigits 8 v).map Char.toNat

/-- Exactly `len` zero-padded octal digit characters of `v` (low `len`
octal digits), most significant first — the digit pattern of `print_val`
and of `%0*o` for values that fit. -/
def printValDigits (v len : Nat) : List Nat :=
  (List.range len).reverse.map (fun i => 48 + v / 8 ^ i % 8)

/-- `%0No`: `N` zero-padded octal digits, or the plain digits when the
value does not fit in `N` digits. -/
def sprintfZeroOct (width v : Nat) : List Nat :=
  if v < 8 ^ width then printValDigits v width else octalChars v

/-- `%No`: octal digits space-padded on the left to width `N`. -/
def sprintfSpaceOct (width v : Nat) : List Nat :=
  let ds := octalChars v
  List.replicate (width - ds.length) 32 ++ ds

/-- `S_ISDIR(m)`: `(m & S_IFMT) == S_IFDIR` (0o170000, 0o040000). -/
def S_ISDIR (m : Nat) : Bool := m &&& 61440 == 16384

/-- `S_ISREG(m)`: `(m & S_IFMT) == S_IFREG` (0o100000). -/
def S_ISREG (m : Nat) : Bool := m &&& 61440 == 32768

/-- `S_ISLNK(m)`: `(m & S_IFMT) == S_IFLNK` (0o120000). -/
def S_ISLNK (m : Nat) : Bool := m &&& 61440 == 40960

/-- The `struct stat` fields `_tarWriteHeader` and `sendDir` read. -/
structure StatBuf where
  st_mode : Nat
  st_uid : Nat
  st_gid : Nat
  st_size : Nat
  st_mtime : Nat
deriving Repr, DecidableEq

/-- `_tarChecksum`: sum of `0xFF & header[i]` over all `i` outside
`[148, 156)`, plus 256 (eight blanks in the checksum field). -/
def _tarChecksum (h : Nat → Nat) : Nat :=
  (Finset.range 512).sum (fun i => if i < 148 ∨ 156 ≤ i then h i &&& 255 else 0) + 256

/--
All field stores of `_tarWriteHeader` up to and including the initial
checksum write (`sprintf(&h[148], "%06o ", lastSum)` with `lastSum = 0`),
in program order, over the `memset`-zeroed 512-byte buffer.  Every
`sprintf` also stores its terminating NUL; note the gid store at offset
117 and the size field (no NUL) at 124 partially overwriting it.
-/
def tarHeaderPre (filename : List Nat) (linktarget : Option (List Nat))
    (sb : StatBuf) : Nat → Nat :=
  let h0 : Nat → Nat := fun _ => 0
  let h1 := writeAt h0 0 (filename.take 99 ++ [0])
  let h2 := if linktarget.isSome || S_ISDIR sb.st_mode then
              writeAt h1 filename.length [47, 0]
            else h1
  let h3 := writeAt h2 100 (sprintfZeroOct 7 sb.st_mode ++ [32, 0])
  let h4 := writeAt h3 108 (sprintfZeroOct 7 sb.st_uid ++ [32, 0])
  let h5 := writeAt h4 117 (sprintfZeroOct 7 sb.st_gid ++ [32, 0])
  let h6 := if linktarget.isSome || S_ISDIR sb.st_mode then
              writeAt h5 124 (printValDigits 0 11)
            else
              writeAt h5 124 (printValDigits sb.st_size 11)
  let h7 := writeAt h6 135 [32, 0]
  let h8 := writeAt h7 136 (sprintfZeroOct 11 sb.st_mtime ++ [32, 0])
  let h9 := writeAt h8 148 (sprintfZeroOct 6 0 ++ [32, 0])
  let h10 := match linktarget with
             | some lt => writeAt (writeAt h9 156 [50, 0]) 157 (lt ++ [0])
             | none => if S_ISDIR sb.st_mode then writeAt h9 156 [53, 0]
                       else writeAt h9 156 [48, 0]
  let h11 := writeAt h10 257 [117, 115, 116, 97, 114, 48, 48, 0]
  let h12 := writeAt h11 265 [112, 111, 115, 116, 103, 114, 101, 115, 0]
  let h13 := writeAt h12 297 [112, 111, 115, 116, 103, 114, 101, 115, 0]
  let h14 := writeAt h13 329 (sprintfSpaceOct 6 0 ++ [32, 0])
  writeAt h14 337 (sprintfSpaceOct 6 0 ++ [32, 0])

/--
The `while ((sum = _tarChecksum(h)) != lastSum)` recompute loop: rewrite
the checksum field with `"%06o "` of the fresh sum until it stabilizes.
`fuel` bounds the iterations; the loop in the source is unbounded, and
`tar_checksum_loop_stable` shows two iterations always reach the fixed
point.
-/
def checksumLoop (h : Nat → Nat) (lastSum : Nat) : Nat → (Nat → Nat)
  | 0 => h
  | fuel + 1 =>
      let sum := _tarChecksum h
      if sum = lastSum then h
      else checksumLoop (writeAt h 148 (sprintfZeroOct 6 sum ++ [32, 0])) sum fuel

/-- `_tarWriteHeader`: the fully assembled 512-byte header after the
checksum fixed-point loop (run with `fuel` iterations available). -/
def _tarWriteHeader (filename : List Nat) (linktarget : Option (List Nat))
    (sb : StatBuf) (fuel : Nat) : Nat → Nat :=
  checksumLoop (tarHeaderPre filename linktarget sb) 0 fuel

/-- `parse_octal`: read `len` octal digit characters at `off`. -/
def parseOctal (h : Nat → Nat) (off len : Nat) : Nat :=
  (List.range len).foldl (fun acc i => acc * 8 + (h (off + i) - 48)) 0

theorem writeAt_out {h : Nat → Nat} {off : Nat} {bytes : List Nat} {i : Nat}
    (hout : i < off ∨ off + bytes.length ≤ i) : writeAt h off bytes i = h i := by
  unfold writeAt
  rw [if_neg]
  omega

theorem writeAt_in {h : Nat → Nat} {off : Nat} {bytes : List Nat} {i : Nat}
    (hin : off ≤ i ∧ i < off + bytes.length) :
    writeAt h off bytes i = bytes.getD (i - off) 0 := by
  unfold writeAt
  rw [if_pos hin]

/-- Rewriting the 8-byte checksum field does not change `_tarChecksum`. -/
theorem tarChecksum_writeAt_148 (h : Nat → Nat) (bytes : List Nat)
    (hlen : bytes.length = 8) :
    _tarChecksum (writeAt h 148 bytes) = _tarChecksum h := by
  unfold _tarChecksum
  have hcg : ∀ i ∈ Finset.range 512,
      (if i < 148 ∨ 156 ≤ i then writeAt h 148 bytes i &&& 255 else 0) =
      (if i < 148 ∨ 156 ≤ i then h i &&& 255 else 0) := by
    intro i _
    by_cases hio : i < 148 ∨ 156 ≤ i
    · rw [if_pos hio, if_pos hio, writeAt_out]
      omega
    · rw [if_neg hio, if_neg hio]
  rw [Finset.sum_congr rfl hcg]

/-- The checksum is at least 256 and less than `8^6`. -/
theorem tarChecksum_bounds (h : Nat → Nat) :
    256 ≤ _tarChecksum h ∧ _tarChecksum h < 8 ^ 6 := by
  constructor
  · exact Nat.le_add_left 256 _
  · unfold _tarChecksum
    have hsum : (Finset.range 512).sum
        (fun i => if i < 148 ∨ 156 ≤ i then h i &&& 255 else 0) ≤ 512 * 255 := by
      calc (Finset.range 512).sum
            (fun i => if i < 148 ∨ 156 ≤ i then h i &&& 255 else 0)
          ≤ (Finset.range 512).sum (fun _ => 255) := by
            apply Finset.sum_le_sum
            intro i _
            split
            · exact Nat.and_le_right
            · exact Nat.zero_le _
        _ = 512 * 255 := by simp [Finset.sum_const, Finset.card_range, Nat.mul_comm]
    norm_num
    omega

/-- `%06o` of a value below `8^6` has exactly six digit characters. -/
theorem sprintfZeroOct6_len {v : Nat} (hv : v < 8 ^ 6) :
    (sprintfZeroOct 6 v ++ [32, 0]).length = 8 := by
  unfold sprintfZeroOct printValDigits
  rw [if_pos hv]
  simp

/-- Reading back the six octal digits written for a value below `8^6`
recovers the value. -/
theorem parseOctal_writeAt_148 (h : Nat → Nat) {v : Nat} (hv : v < 8 ^ 6) :
    parseOctal (writeAt h 148 (sprintfZeroOct 6 v ++ [32, 0])) 148 6 = v := by
  unfold parseOctal
  have hget : ∀ i, i < 6 →
      writeAt h 148 (sprintfZeroOct 6 v ++ [32, 0]) (148 + i) = 48 + v / 8 ^ (5 - i) % 8 := by
    intro i hi
    rw [writeAt_in (by
      constructor
      · omega
      · have := sprintfZeroOct6_len hv
        omega)]
    have : (148 : Nat) + i - 148 = i := by omega
    rw [this]
    unfold sprintfZeroOct
    rw [if_pos hv]
    unfold printValDigits
    interval_cases i <;> simp [List.range_succ]
  have h0 := hget 0 (by norm_num)
  have h1 := hget 1 (by norm_num)
  have h2 := hget 2 (by norm_num)
  have h3 := hget 3 (by norm_num)
  have h4 := hget 4 (by norm_num)
  have h5 := hget 5 (by norm_num)
  simp only [List.range_succ, List.range_zero, List.nil_append, List.cons_append,
    List.foldl_cons, List.foldl_nil] at *
  rw [h0, h1, h2, h3, h4, h5]
  norm_num at hv ⊢
  omega

end BaseBackup

namespace BaseBackup

/-- The checksum recompute loop stabilizes after one rewrite: two
iterations of fuel always suffice, and the result is the pre-checksum
header with the true checksum written into the field. -/
theorem checksumLoop_stable (h : Nat → Nat) {fuel : Nat} (hf : 2 ≤ fuel) :
    checksumLoop h 0 fuel =
      writeAt h 148 (sprintfZeroOct 6 (_tarChecksum h) ++ [32, 0]) := by
  obtain ⟨k, rfl⟩ : ∃ k, fuel = k + 2 := ⟨fuel - 2, by omega⟩
  have hb := tarChecksum_bounds h
  have hne : _tarChecksum h ≠ 0 := by omega
  have hlen : (sprintfZeroOct 6 (_tarChecksum h) ++ [32, 0]).length = 8 :=
    sprintfZeroOct6_len hb.2
  have hsame := tarChecksum_writeAt_148 h
    (sprintfZeroOct 6 (_tarChecksum h) ++ [32, 0]) hlen
  show checksumLoop h 0 (k + 1 + 1) = _
  rw [checksumLoop, if_neg hne, checksumLoop, if_pos hsame]

/--
C5: for every 512-byte tar header produced by `_tarWriteHeader`, after the
write-recompute loop finishes the checksum stored in the header equals the
sum of all header bytes with bytes `[148..156)` treated as eight ASCII
spaces (`_tarChecksum H = parseOctal H 148 6`), and the loop reaches this
fixed point within two iterations for every member (any fuel of at least
two yields the same header).
-/
theorem tar_header_checksum (filename : List Nat) (linktarget : Option (List Nat))
    (sb : StatBuf) (fuel : Nat) (hf : 2 ≤ fuel) :
    _tarWriteHeader filename linktarget sb fuel =
      _tarWriteHeader filename linktarget sb 2 ∧
    _tarChecksum (_tarWriteHeader filename linktarget sb fuel) =
      parseOctal (_tarWriteHeader filename linktarget sb fuel) 148 6 := by
  unfold _tarWriteHeader
  rw [checksumLoop_stable _ hf, checksumLoop_stable _ (Nat.le_refl 2)]
  have hb := tarChecksum_bounds (tarHeaderPre filename linktarget sb)
  have hlen := sprintfZeroOct6_len hb.2
  refine ⟨rfl, ?_⟩
  rw [tarChecksum_writeAt_148 _ _ hlen,
    parseOctal_writeAt_148 (tarHeaderPre filename linktarget sb) hb.2]

/-- Witness for `tar_header_checksum`: the header of a concrete regular
member (`./x`, mode 0o100644, uid 26, gid 27, size 9) checksums correctly
with fuel 2. -/
theorem tar_header_checksum_witness :
    _tarChecksum (_tarWriteHeader [46, 47, 120] none ⟨33188, 26, 27, 9, 0⟩ 2) =
      parseOctal (_tarWriteHeader [46, 47, 120] none ⟨33188, 26, 27, 9, 0⟩ 2) 148 6 :=
  (tar_header_checksum [46, 47, 120] none ⟨33188, 26, 27, 9, 0⟩ 2 (by decide)).2

/--
C9 (divergence witness): in the header of the concrete regular member
`./x` with uid 26 and gid 27, byte 116 is 0 (the NUL terminator of the uid
field's `sprintf`) and the gid digits `0000033` occupy bytes `[117..124)`
(the trailing space of the gid store at 124 is overwritten by the size
field): the gid field is written at offset 117, not at the ustar offset
116 claimed, under which byte 116 would be `'0'` (48) and byte 123 the
field's space (32).
-/
theorem tar_gid_written_at_117 :
    tarHeaderPre [46, 47, 120] none ⟨33188, 26, 27, 9, 0⟩ 116 = 0 ∧
    tarHeaderPre [46, 47, 120] none ⟨33188, 26, 27, 9, 0⟩ 117 = 48 ∧
    tarHeaderPre [46, 47, 120] none ⟨33188, 26, 27, 9, 0⟩ 122 = 51 ∧
    tarHeaderPre [46, 47, 120] none ⟨33188, 26, 27, 9, 0⟩ 123 = 51 ∧
    tarHeaderPre [46, 47, 120] none ⟨33188, 26, 27, 9, 0⟩ 124 = 48 ∧
    tarHeaderPre [46, 47, 120] none ⟨33188, 26, 27, 9, 0⟩ 108 = 48 ∧
    tarHeaderPre [46, 47, 120] none ⟨33188, 26, 27, 9, 0⟩ 115 = 32 := by
  decide

end BaseBackup

namespace BaseBackup

/-! ### sendDir / SendBackupDirectory (basebackup.c) -/

/-- Bytes of a string (ASCII code points). -/
def strBytes (s : String) : List Nat := s.data.map (fun c => c.toNat)

/-- The 512 bytes of an assembled header, in offset order. -/
def headerBytes (h : Nat → Nat) : List Nat := (List.range 512).map h

/-!
A filesystem tree as observed through `lstat`: each node carries the
`struct stat` fields; the constructor corresponds to the mode-bit class
(`S_ISREG` / `S_ISDIR` / `S_ISLNK` / other) that `sendDir` branches on.
Regular files also carry their live contents (which may disagree with
`st_size`); symlinks carry their `readlink` target.
-/
mutual
inductive FsNode where
  | file (sb : StatBuf) (contents : List Nat) : FsNode
  | dir (sb : StatBuf) (sub : FsListing) : FsNode
  | symlink (sb : StatBuf) (target : List Nat) : FsNode
  | special (sb : StatBuf) : FsNode

inductive FsListing where
  | nil : FsListing
  | cons (name : List Nat) (node : FsNode) (rest : FsListing) : FsListing
end

/-- `sendFile`: the 512-byte member header followed by the body bytes
(declared-size data, zero fill, 512-alignment pad). -/
def sendFile (filename : List Nat) (sb : StatBuf) (contents : List Nat) : List Nat :=
  headerBytes (_tarWriteHeader filename none sb 2) ++ sendFileBody sb.st_size contents

mutual
/--
The `while ((de = ReadDir(dir, path)) != NULL)` loop of `sendDir` over the
entries of the directory at `path`: skip `.` and `..`, skip the reserved
paths `./pg_xlog` and `./postmaster.pid`, then dispatch on the `lstat`
class of `path/name`.  Returns the bytes emitted to the wire (empty in
`sizeonly` mode) and the accumulated `size` total.
-/
def sendDirList (path : List Nat) (entries : FsListing) (sizeonly : Bool) :
    List Nat × Nat :=
  match entries with
  | .nil => ([], 0)
  | .cons name node rest =>
      let r2 := sendDirList path rest sizeonly
      if name = strBytes "." ∨ name = strBytes ".." then r2
      else
        let pathbuf := path ++ [47] ++ name
        if pathbuf = strBytes "./pg_xlog" then r2
        else if pathbuf = strBytes "./postmaster.pid" then r2
        else
          let r1 := sendDirEntry path pathbuf node sizeonly
          (r1.1 ++ r2.1, r1.2 + r2.2)

/--
One entry of the `sendDir` loop: a symlink is emitted (header only) when
the parent is `./pg_tblspc` and skipped with a warning elsewhere; a
directory emits its header and is recursed into; a regular file adds
`st_size` to the total and is sent via `sendFile`; anything else is
skipped with a warning.  In `sizeonly` mode nothing is emitted.
-/
def sendDirEntry (path pathbuf : List Nat) (node : FsNode) (sizeonly : Bool) :
    List Nat × Nat :=
  match node with
  | .symlink sb target =>
      if path = strBytes "./pg_tblspc" then
        ((if sizeonly then [] else headerBytes (_tarWriteHeader pathbuf (some target) sb 2)), 0)
      else ([], 0)
  | .dir sb sub =>
      let hdr : List Nat :=
        if sizeonly then [] else headerBytes (_tarWriteHeader pathbuf none sb 2)
      let r := sendDirList pathbuf sub sizeonly
      (hdr ++ r.1, r.2)
  | .file sb contents =>
      ((if sizeonly then [] else sendFile pathbuf sb contents), sb.st_size)
  | .special _ => ([], 0)
end

mutual
/-- The `st_size` values of the regular files the walk enumerates (after
the skip rules), in traversal order. -/
def walkRegularSizes (path : List Nat) (entries : FsListing) : List Nat :=
  match entries with
  | .nil => []
  | .cons name node rest =>
      let r2 := walkRegularSizes path rest
      if name = strBytes "." ∨ name = strBytes ".." then r2
      else
        let pathbuf := path ++ [47] ++ name
        if pathbuf = strBytes "./pg_xlog" then r2
        else if pathbuf = strBytes "./postmaster.pid" then r2
        else walkRegularSizesEntry pathbuf node ++ r2

/-- Regular-file sizes contributed by one entry. -/
def walkRegularSizesEntry (pathbuf : List Nat) (node : FsNode) : List Nat :=
  match node with
  | .symlink _ _ => []
  | .dir _ sub => walkRegularSizes pathbuf sub
  | .file sb _ => [sb.st_size]
  | .special _ => []
end

/-- The copy-data byte stream of one batch between the CopyOutResponse and
the CopyDone message of `SendBackupDirectory`: `sendDir(location == NULL ?
"." : location, false)` — and nothing else. -/
def batchBody (location : Option (List Nat)) (tree : FsListing) : List Nat :=
  (sendDirList (match location with
                | none => strBytes "."
                | some l => l) tree false).1

/-- `ReceiveTarFile` (pg_basebackup.c): the bytes written to `base.tar` /
`<oid>.tar`: the copy stream verbatim, then `zerobuf` — two completely
empty 512-byte blocks — before closing. -/
def receiveTarFileBytes (stream : List Nat) : List Nat :=
  stream ++ List.replicate 1024 0

end BaseBackup

namespace BaseBackup

mutual
/-- Size-only walk of one entry: emits nothing and totals the regular-file
sizes below it. -/
theorem sendDirEntry_sizeonly (path pathbuf : List Nat) (node : FsNode) :
    (sendDirEntry path pathbuf node true).1 = [] ∧
    (sendDirEntry path pathbuf node true).2 =
      (walkRegularSizesEntry pathbuf node).sum :=
  match node with
  | .symlink sb target => by
      unfold sendDirEntry walkRegularSizesEntry
      split <;> simp
  | .dir sb sub => by
      have ih := sendDirList_sizeonly pathbuf sub
      unfold sendDirEntry walkRegularSizesEntry
      simp [ih.1, ih.2]
  | .file sb contents => by
      unfold sendDirEntry walkRegularSizesEntry
      simp
  | .special sb => by
      unfold sendDirEntry walkRegularSizesEntry
      simp

/-- Size-only walk of a listing: emits nothing and totals the regular-file
sizes it enumerates. -/
theorem sendDirList_sizeonly (path : List Nat) (entries : FsListing) :
    (sendDirList path entries true).1 = [] ∧
    (sendDirList path entries true).2 = (walkRegularSizes path entries).sum :=
  match entries with
  | .nil => by
      unfold sendDirList walkRegularSizes
      simp
  | .cons name node rest => by
      have ih2 := sendDirList_sizeonly path rest
      have ih1 := sendDirEntry_sizeonly path (path ++ [47] ++ name) node
      unfold sendDirList walkRegularSizes
      dsimp only
      split
      · exact ih2
      · split
        · exact ih2
        · split
          · exact ih2
          · simp only [List.append_assoc, List.singleton_append] at ih1
            simp [ih1.1, ih1.2, ih2.1, ih2.2]
end

/--
C10: the size-only walk (`sendDir(path, true)`, the progress pre-walk of
`SendBackupDirectory`) emits no bytes to the outgoing stream — no tar
headers and no file bodies, so the wire state is unchanged — and returns
the sum of `st_size` over the regular files it enumerates.
-/
theorem sendDir_sizeonly_frame (path : List Nat) (entries : FsListing) :
    (sendDirList path entries true).1 = [] ∧
    (sendDirList path entries true).2 = (walkRegularSizes path entries).sum :=
  sendDirList_sizeonly path entries

/--
C8 (counterexample): for the concrete tree holding a single empty
directory `d`, the batch's copy-data stream is exactly the 512 bytes of
the one directory header — it does not end with two 512-byte zero blocks,
so the sender does not emit the tar stream terminator before copy-done.
-/
theorem sender_batch_has_no_terminator :
    (batchBody none (.cons (strBytes "d")
        (.dir ⟨16877, 26, 27, 0, 0⟩ .nil) .nil)).length = 512 ∧
    ¬ ∃ pre, batchBody none (.cons (strBytes "d")
        (.dir ⟨16877, 26, 27, 0, 0⟩ .nil) .nil) = pre ++ List.replicate 1024 0 := by
  have hlen : (batchBody none (.cons (strBytes "d")
      (.dir ⟨16877, 26, 27, 0, 0⟩ .nil) .nil)).length = 512 := by
    decide
  refine ⟨hlen, ?_⟩
  rintro ⟨pre, hpre⟩
  have hl := congrArg List.length hpre
  rw [hlen] at hl
  simp only [List.length_append, List.length_replicate] at hl
  omega

/--
C8 (amended): the archive file written by the tar-mode receiver for a
batch consists of the sender's member bytes (the `sendDir` emission —
the sender appends nothing after it before copy-done) followed by exactly
two 512-byte zero blocks, which `ReceiveTarFile` appends before closing.
-/
theorem tar_terminator_appended_by_receiver (location : Option (List Nat))
    (tree : FsListing) :
    receiveTarFileBytes (batchBody location tree) =
      (sendDirList (match location with
                    | none => strBytes "."
                    | some l => l) tree false).1 ++
        (List.replicate 512 0 ++ List.replicate 512 0) := by
  unfold receiveTarFileBytes batchBody
  rw [← List.replicate_add]

/-! ### verify_dir_is_empty_or_create / ReceiveAndUnpackTarFile (pg_basebackup.c) -/

/-- The in-place rewrite at the top of `verify_dir_is_empty_or_create`:
`if (dirname[0] == '/') dirname[0] = '_';` — the documented "hack to allow
restoring backups locally". -/
def sanitizeDirname : List Nat → List Nat
  | [] => []
  | c :: rest => if c = 47 then 95 :: rest else c :: rest

/--
The directory a non-primary batch is unpacked into: `BaseBackup` passes the
server-reported `spclocation` through `verify_dir_is_empty_or_create`
(mutating the stored value in place), and `ReceiveAndUnpackTarFile` copies
that value into `current_path` and passes it through
`verify_dir_is_empty_or_create` again.
-/
def auxTargetDir (spclocation : List Nat) : List Nat :=
  sanitizeDirname (sanitizeDirname spclocation)

/-- The output path of one unpacked member:
`snprintf(fn, sizeof(fn), "%s/%s", current_path, copybuf)` — the member
name is joined verbatim. -/
def unpackMemberPath (targetDir memberName : List Nat) : List Nat :=
  targetDir ++ [47] ++ memberName

/--
C7 (counterexample): for the server-reported location `/srv/ts1`, the
receiver creates and unpacks into `_srv/ts1`, not the original absolute
path; and the member name `/srv/ts1/x` is joined to the target directory
verbatim — the leading `/` of the member name is not replaced.
-/
theorem unpack_aux_path_counterexample :
    auxTargetDir (strBytes "/srv/ts1") ≠ strBytes "/srv/ts1" ∧
    auxTargetDir (strBytes "/srv/ts1") = strBytes "_srv/ts1" ∧
    unpackMemberPath (auxTargetDir (strBytes "/srv/ts1")) (strBytes "/srv/ts1/x") =
      strBytes "_srv/ts1//srv/ts1/x" := by
  refine ⟨?_, ?_, ?_⟩ <;> decide

/--
C7 (amended): for every non-primary batch the receiver restores the
location's tree under the server-reported absolute path with its leading
`/` replaced by `_` (the deliberate hack in
`verify_dir_is_empty_or_create`, applied to the batch target directory);
no other byte of the path changes, paths not starting with `/` are left
alone, and member names are joined to the target directory verbatim, with
no rewriting of their own.
-/
theorem unpack_aux_path_sanitization (p m : List Nat) :
    (auxTargetDir p = sanitizeDirname p) ∧
    (∀ rest, p = 47 :: rest → auxTargetDir p = 95 :: rest) ∧
    (∀ c rest, p = c :: rest → c ≠ 47 → auxTargetDir p = p) ∧
    (unpackMemberPath (auxTargetDir p) m = auxTargetDir p ++ [47] ++ m) := by
  refine ⟨?_, ?_, ?_, rfl⟩
  · match p with
    | [] => rfl
    | c :: rest =>
        unfold auxTargetDir sanitizeDirname
        by_cases hc : c = 47
        · simp [hc]
        · simp [hc]
  · rintro rest rfl
    unfold auxTargetDir sanitizeDirname
    simp
  · rintro c rest rfl hc
    unfold auxTargetDir sanitizeDirname
    simp [hc]

/-- Witness for `unpack_aux_path_sanitization` at the concrete location
`/srv/ts1` and member `x`. -/
theorem unpack_aux_path_sanitization_witness :
    auxTargetDir (strBytes "/srv/ts1") = 95 :: (strBytes "/srv/ts1").tail ∧
    unpackMemberPath (auxTargetDir (strBytes "/srv/ts1")) (strBytes "x") =
      auxTargetDir (strBytes "/srv/ts1") ++ [47] ++ strBytes "x" :=
  ⟨(unpack_aux_path_sanitization (strBytes "/srv/ts1") (strBytes "x")).2.1
      (strBytes "/srv/ts1").tail (by decide),
   (unpack_aux_path_sanitization (strBytes "/srv/ts1") (strBytes "x")).2.2.2⟩

end BaseBackup

namespace BaseBackup

/-! ### SendBaseBackup lifecycle (basebackup.c) -/

/-- The top-level operations of `SendBaseBackup`, in source order. -/
inductive SOp where
  /-- `AllocateDir("pg_tblspc")` (fatal if it fails). -/
  | openTblspcDir
  /-- `do_pg_start_backup(backup_label, true)`. -/
  | startBackup
  /-- `PG_ENSURE_ERROR_CLEANUP(base_backup_cleanup, 0)`. -/
  | armCleanup
  /-- the guarded block: primary `SendBackupDirectory` plus the
      per-tablespace loop (a `readlink` failure inside only warns and
      skips; any fatal error escapes). -/
  | sendBatches
  /-- `PG_END_ENSURE_ERROR_CLEANUP(base_backup_cleanup, 0)`. -/
  | disarmCleanup
  /-- `do_pg_stop_backup()`. -/
  | stopBackup
deriving Repr, DecidableEq

/-- The source order of `SendBaseBackup`: the cleanup hook is armed right
after `do_pg_start_backup` and disarmed before `do_pg_stop_backup`. -/
def sendBaseBackupProgram : List SOp :=
  [.openTblspcDir, .startBackup, .armCleanup, .sendBatches, .disarmCleanup, .stopBackup]

/-- Observable backup-lifecycle calls. -/
inductive LEvent where
  | startB
  | abortB
  | stopB
deriving Repr, DecidableEq

/--
Modelled from the spec: the ensure-cleanup machinery
(`PG_ENSURE_ERROR_CLEANUP` / `PG_END_ENSURE_ERROR_CLEANUP` live outside
`src/`): between arming and disarming, the first fatal error invokes the
cleanup — here `base_backup_cleanup`, i.e. `do_pg_abort_backup` — exactly
once and execution stops; outside that window a fatal error just stops
execution.  `failOn` says which operations raise a fatal error (the first
failing operation in program order ends the run).
-/
def runSOps (failOn : SOp → Bool) : List SOp → Bool → List LEvent
  | [], _ => []
  | op :: rest, armed =>
      if failOn op then (if armed then [.abortB] else [])
      else
        match op with
        | .armCleanup => runSOps failOn rest true
        | .disarmCleanup => runSOps failOn rest false
        | .startBackup => .startB :: runSOps failOn rest armed
        | .stopBackup => .stopB :: runSOps failOn rest armed
        | _ => runSOps failOn rest armed

/-- The lifecycle calls of one `SendBaseBackup` run. -/
def SendBaseBackup_events (failOn : SOp → Bool) : List LEvent :=
  runSOps failOn sendBaseBackupProgram false

/--
C4 (counterexample): a fatal error inside `do_pg_stop_backup` — which is
after `start_backup` succeeded and before `stop_backup` succeeded — does
not invoke `abort_backup` at all: the cleanup hook was already disarmed by
`PG_END_ENSURE_ERROR_CLEANUP` before `do_pg_stop_backup` runs, refuting
"disarmed after stop_backup succeeds".
-/
theorem backup_abort_counterexample :
    SendBaseBackup_events (fun op => op == SOp.stopBackup) = [.startB] ∧
    (SendBaseBackup_events (fun op => op == SOp.stopBackup)).count LEvent.abortB = 0 := by
  decide

/--
C4 (amended): the cleanup hook is armed after `start_backup` succeeds and
disarmed before `stop_backup` is invoked; a fatal error in the guarded
region (the batch sending) triggers exactly one `abort_backup`; a fatal
error inside `stop_backup` triggers none (the hook is already disarmed);
and a run with no fatal error performs `start_backup` then `stop_backup`
with no abort.
-/
theorem backup_cleanup_hook (failOn : SOp → Bool)
    (hopen : failOn .openTblspcDir = false)
    (hstart : failOn .startBackup = false)
    (harm : failOn .armCleanup = false)
    (hdis : failOn .disarmCleanup = false) :
    (failOn .sendBatches = true →
        SendBaseBackup_events failOn = [.startB, .abortB]) ∧
    (failOn .sendBatches = false → failOn .stopBackup = true →
        SendBaseBackup_events failOn = [.startB]) ∧
    (failOn .sendBatches = false → failOn .stopBackup = false →
        SendBaseBackup_events failOn = [.startB, .stopB]) := by
  refine ⟨?_, ?_, ?_⟩ <;>
    intro h1 <;>
    first
      | (intro h2
         simp [SendBaseBackup_events, sendBaseBackupProgram, runSOps,
           hopen, hstart, harm, hdis, h1, h2])
      | simp [SendBaseBackup_events, sendBaseBackupProgram, runSOps,
          hopen, hstart, harm, hdis, h1]

/-- Witness for `backup_cleanup_hook`: a fatal error while sending batches
aborts exactly once; an error-free run starts and stops with no abort. -/
theorem backup_cleanup_hook_witness :
    SendBaseBackup_events (fun op => op == SOp.sendBatches) = [.startB, .abortB] ∧
    SendBaseBackup_events (fun _ => false) = [.startB, .stopB] :=
  ⟨(backup_cleanup_hook (fun op => op == SOp.sendBatches) rfl rfl rfl rfl).1 rfl,
   (backup_cleanup_hook (fun _ => false) rfl rfl rfl rfl).2.2 rfl rfl⟩

end BaseBackup

namespace ReceiveLog

/-! ### FindStreamingStart / StreamLog (pg_receivexlog.c) -/

/-- `'0'..'9'` or `'A'..'F'`: the filename characters accepted by the
scan loop. -/
def isHexUpper (c : Nat) : Bool :=
  (48 ≤ c && c ≤ 57) || (65 ≤ c && c ≤ 70)

/-- Value of one accepted hex digit character. -/
def hexVal (c : Nat) : Nat := if c ≤ 57 then c - 48 else c - 55

/-- `sscanf("%08X", ...)` over exactly the given digit characters. -/
def parseHex (cs : List Nat) : Nat :=
  cs.foldl (fun acc c => acc * 16 + hexVal c) 0

/--
The directory scan loop of `FindStreamingStart` over `(name, st_size)`
entries: skip `.`/`..`, names not of length 24, names with a character
outside `0-9A-F`, and names of another timeline; parse
`%08X%08X%08X` into `(tli, log, seg)` and — as in the source — multiply
`log` by `XLOG_SEG_SIZE` in 32-bit arithmetic; a 16 MiB entry is a
completed segment and updates the running `high` when larger; any other
size is a partial segment: it is renamed to `<name>.partial` and the scan
stops (`break`).  Returns the final `high` and the renamed names.
-/
def findLoop (currenttimeline : Nat) :
    List (List Nat × Nat) → XLogRecPtr → XLogRecPtr × List (List Nat)
  | [], high => (high, [])
  | (name, size) :: rest, high =>
      if name = BaseBackup.strBytes "." ∨ name = BaseBackup.strBytes ".." then
        findLoop currenttimeline rest high
      else if name.length ≠ 24 then findLoop currenttimeline rest high
      else if ¬ name.all isHexUpper then findLoop currenttimeline rest high
      else
        let tli := parseHex (name.take 8)
        let log := parseHex ((name.drop 8).take 8) * XLOG_SEG_SIZE % U32
        let seg := parseHex (name.drop 16)
        if tli ≠ currenttimeline then findLoop currenttimeline rest high
        else if size = 16 * 1024 * 1024 then
          if high.xlogid < log ∨ (log = high.xlogid ∧ high.xrecoff < seg) then
            findLoop currenttimeline rest ⟨log, seg⟩
          else findLoop currenttimeline rest high
        else (high, [name])

/-- `FindStreamingStart`: scan the directory; return `high` when both of
its fields are positive, else the server-provided position; also return
the names renamed to `.partial`. -/
def FindStreamingStart (entries : List (List Nat × Nat)) (currentpos : XLogRecPtr)
    (currenttimeline : Nat) : XLogRecPtr × List (List Nat) :=
  let r := findLoop currenttimeline entries ⟨0, 0⟩
  (if 0 < r.1.xlogid ∧ 0 < r.1.xrecoff then r.1 else currentpos, r.2)

/-- `StreamLog`: the start position actually streamed from —
`FindStreamingStart`'s result with `xrecoff` rounded down to a segment
boundary (`startpos.xrecoff -= startpos.xrecoff % XLOG_SEG_SIZE`). -/
def streamLogStartpos (entries : List (List Nat × Nat)) (serverpos : XLogRecPtr)
    (currenttimeline : Nat) : XLogRecPtr :=
  let sp := (FindStreamingStart entries serverpos currenttimeline).1
  ⟨sp.xlogid, sp.xrecoff - sp.xrecoff % XLOG_SEG_SIZE⟩

/--
C6 (divergence witness): with exactly one completed segment
`000000010000000100000002` (timeline 1, log file 1, segment 2, exactly
16 MiB) on disk and server position `7/0`, streaming resumes from
`(xlogid = 16777216, xrecoff = 0)`: the scan multiplied the log id by
`XLOG_SEG_SIZE` and stored the raw segment index in `xrecoff`, which the
round-down then zeroes — not from the end of the completed segment,
`(xlogid = 1, xrecoff = 3 * XLOG_SEG_SIZE)`, as the claim (and the
function's own comment) requires.
-/
theorem findStreamingStart_resume_divergence :
    streamLogStartpos
        [(BaseBackup.strBytes "000000010000000100000002", 16 * 1024 * 1024)]
        ⟨7, 0⟩ 1 = ⟨16777216, 0⟩ ∧
    (⟨16777216, 0⟩ : XLogRecPtr) ≠ ⟨1, 50331648⟩ := by
  decide

end ReceiveLog
